import Mathlib

/-!
Shallow embedding of the Body engine (`src/unnamed/part_000`, the repository's
`body.js`) and the `Headers` class (`src/src/headers.js`) of this repository,
together with theorems settling the frozen claims about them.

Conventions of the embedding:
* Bytes are `Nat` (the contents of Node `Buffer`s); byte buffers are `List Nat`.
* A JavaScript value that may be one of several runtime shapes is a tagged
  inductive; the duck-typed `typeof`/`instanceof`/structural checks of the
  source become constructor tags decided once (the tags are mutually exclusive
  at runtime, so the source's if-chain order is preserved by a `match`).
* Promise rejection / `throw` is `Except.error`.
* Mutation of a Body's internal state (`this[INTERNALS]`) is explicit state
  passing on `BodyState`.
* Platform builtins that are not part of this repository (UTF-8 decoding for
  `buffer.toString()`, `JSON.parse`, the headers lookup feeding `blob()`'s
  content type) are parameters of the corresponding accessor.
* The response timeout timer, Node event-loop interleavings and the
  `Buffer.concat` allocation failure of `consumeBody` are not modelled; none
  of the claims concern them.
-/

/-- Error kinds surfaced by the body engine, named after the specification's
taxonomy.  `bodyAlreadyConsumed` is the source's `TypeError('body used
already')`, `bodyTooLarge` the `FetchError(..., 'max-size')`, `systemError`
the `FetchError(..., 'system')` wrapper, `abortError` an external abort
passed through unchanged, `parseError` a `JSON.parse` failure. -/
inductive FetchErr where
  | bodyAlreadyConsumed
  | bodyTooLarge
  | parseError (msg : String)
  | systemError (msg : String)
  | abortError
deriving DecidableEq, Repr

/-- The normalized internal payload representation stored by the `Body`
constructor (`this[INTERNALS].body`).
* `empty` — the stored `null`.
* `bytes` — a Node `Buffer`.
* `blob` — a `fetch-blob` value: declared media `type` and its `content`
  bytes (its `.size` is the content length; its `.stream()` delivers the
  content).
* `formEncoder` — a `form-data` stream, detected structurally via its
  `getBoundary`/`getLengthSync`/`hasKnownLength` members, delivering `chunks`.
* `stream` — any other Node readable stream: the `chunks` it will deliver
  before ending gracefully, plus its buffering `highWaterMark`. -/
inductive BodySource where
  | empty
  | bytes (buf : List Nat)
  | blob (type : String) (content : List Nat)
  | formEncoder (boundary : String) (knownLength : Bool) (lengthSync : Nat) (chunks : List (List Nat))
  | stream (chunks : List (List Nat)) (highWaterMark : Nat)
deriving DecidableEq, Repr

/-- The mutable internals of a `Body` instance: `this[INTERNALS]` plus the
`size` option (`0` = unlimited) handed to the constructor. -/
structure BodyState where
  source : BodySource
  disturbed : Bool
  error : Option FetchErr
  size : Nat
deriving DecidableEq, Repr

/-- The `body.on('data', ...)` accumulation loop of `consumeBody`: fold over
the chunks a stream delivers, enforcing the `data.size` limit (`0` disables
it); on graceful completion the accumulated chunks are concatenated
(`Buffer.concat(accum, accumBytes)`). -/
def consumeChunks (size : Nat) (accumBytes : Nat) (accum : List (List Nat)) :
    List (List Nat) → Except FetchErr (List Nat)
  | [] => .ok accum.flatten
  | chunk :: rest =>
    if size ≠ 0 ∧ accumBytes + chunk.length > size then .error .bodyTooLarge
    else consumeChunks size (accumBytes + chunk.length) (accum ++ [chunk]) rest

/-- `consumeBody(data)` of the source: reject when already disturbed, else
mark disturbed, surface a latched error, then drain by source shape (a blob
drains through its own stream, hence through the size-limited accumulation
path; an in-memory buffer resolves immediately and bypasses the size
check). Returns the settlement outcome together with the updated state. -/
def consumeBody (data : BodyState) : Except FetchErr (List Nat) × BodyState :=
  if data.disturbed then (.error .bodyAlreadyConsumed, data)
  else
    let d : BodyState := { data with disturbed := true }
    match data.error with
    | some e => (.error e, d)
    | none =>
      match data.source with
      | .empty => (.ok [], d)
      | .blob _ content => (consumeChunks data.size 0 [] [content], d)
      | .bytes buf => (.ok buf, d)
      | .formEncoder _ _ _ chunks => (consumeChunks data.size 0 [] chunks, d)
      | .stream chunks _ => (consumeChunks data.size 0 [] chunks, d)

/-- The value produced by the `blob()` accessor (`new Blob([], {type, buffer})`). -/
structure BlobVal where
  type : String
  content : List Nat
deriving DecidableEq, Repr

namespace Body

/-- `get bodyUsed()`: reflects the disturbed flag. -/
def bodyUsed (s : BodyState) : Bool :=
  s.disturbed

/-- `buffer()`: the raw drain, `consumeBody(this)` itself. -/
def buffer (s : BodyState) : Except FetchErr (List Nat) × BodyState :=
  consumeBody s

/-- `arrayBuffer()`: drain, then copy out the bytes
(`buffer.slice(byteOffset, byteOffset + byteLength)` — an identity on the
byte-list model). -/
def arrayBuffer (s : BodyState) : Except FetchErr (List Nat) × BodyState :=
  let r := consumeBody s
  (r.1.map (fun buf => buf), r.2)

/-- `text()`: drain, then decode (`buffer.toString()`); the UTF-8 decoder is
a platform builtin and is passed in as `decode`. -/
def text (decode : List Nat → String) (s : BodyState) :
    Except FetchErr String × BodyState :=
  let r := consumeBody s
  (r.1.map decode, r.2)

/-- `json()`: drain, then `JSON.parse(buffer.toString())`; the parser is a
platform builtin and is passed in as `parse`. -/
def json {α : Type} (parse : List Nat → Except FetchErr α) (s : BodyState) :
    Except FetchErr α × BodyState :=
  let r := consumeBody s
  (r.1.bind parse, r.2)

/-- `blob()`: drain, then wrap the bytes in a Blob whose type is the
holder's content-type header or the source blob's own type (`ct`, computed
by the caller's headers — external to this state) lowercased. -/
def blob (ct : String) (lower : String → String) (s : BodyState) :
    Except FetchErr BlobVal × BodyState :=
  let r := consumeBody s
  (r.1.map (fun buf => BlobVal.mk (lower ct) buf), r.2)

end Body

/-- The error thrown by `clone` (`Error('cannot clone body after it is
used')`), named after the specification's taxonomy. -/
inductive CloneError where
  | cloneAfterConsumption
deriving DecidableEq, Repr

/-- `clone(instance, highWaterMark)` of the source: throw when the body is
used; tee a stream source — but not a form-data object (the
`typeof body.getBoundary !== 'function'` guard) — into two `PassThrough`
branches buffered at `highWaterMark` carrying the same chunks, keeping one
branch in the instance and returning the other; return every other source
shape as-is with the instance untouched. -/
def clone (inst : BodyState) (highWaterMark : Nat) :
    Except CloneError (BodySource × BodyState) :=
  if inst.disturbed then .error .cloneAfterConsumption
  else
    match inst.source with
    | .stream chunks _ =>
        .ok (.stream chunks highWaterMark,
             { inst with source := .stream chunks highWaterMark })
    | src => .ok (src, inst)

/-- UTF-8 encoding of one character (what `Buffer.from(string)` does per
code point). -/
def utf8EncodeChar (c : Char) : List Nat :=
  let n := c.toNat
  if n < 0x80 then [n]
  else if n < 0x800 then [0xC0 + n / 0x40, 0x80 + n % 0x40]
  else if n < 0x10000 then
    [0xE0 + n / 0x1000, 0x80 + (n / 0x40) % 0x40, 0x80 + n % 0x40]
  else
    [0xF0 + n / 0x40000, 0x80 + (n / 0x1000) % 0x40, 0x80 + (n / 0x40) % 0x40,
     0x80 + n % 0x40]

/-- `Buffer.from(s)`: the UTF-8 bytes of a string. -/
def utf8Encode (s : String) : List Nat :=
  (s.data.map utf8EncodeChar).flatten

/-- A not-yet-normalized `Body` constructor input (`options.body`), one tag
per runtime shape the source's if-chain distinguishes.  A form-data object
is a stream exposing `getBoundary`, so `formEncoderInit` and `streamInit`
are disjoint tags.  `other` carries `String(body)`, the string the value
coerces to. -/
inductive BodyInit where
  | null
  | undef
  | str (s : String)
  | urlSearchParams (serialized : String)
  | blobInit (type : String) (content : List Nat)
  | bufferInit (buf : List Nat)
  | arrayBufferInit (buf : List Nat)
  | arrayBufferView (buf : List Nat)
  | formEncoderInit (boundary : String) (knownLength : Bool) (lengthSync : Nat) (chunks : List (List Nat))
  | streamInit (chunks : List (List Nat)) (highWaterMark : Nat)
  | other (coerced : String)
deriving DecidableEq, Repr

/-- The normalization chain of the `Body` constructor.  Note the first guard
is strict `body === null`, so `undefined` does not take the `empty` branch:
it falls through every shape test to `Buffer.from(String(body))`, and
`String(undefined)` is the 9-byte string `"undefined"`. -/
def normalizeBody : BodyInit → BodySource
  | .null => .empty
  | .undef => .bytes (utf8Encode "undefined")
  | .str s => .bytes (utf8Encode s)
  | .urlSearchParams s => .bytes (utf8Encode s)
  | .blobInit t c => .blob t c
  | .bufferInit b => .bytes b
  | .arrayBufferInit b => .bytes b
  | .arrayBufferView b => .bytes b
  | .formEncoderInit b k n ch => .formEncoder b k n ch
  | .streamInit ch h => .stream ch h
  | .other s => .bytes (utf8Encode s)

/-- The `Body` constructor: normalize the input and initialise
`this[INTERNALS]` with `disturbed = false`, `error = null`, plus the `size`
option. -/
def bodyCtor (init : BodyInit) (size : Nat) : BodyState :=
  { source := normalizeBody init, disturbed := false, error := none, size := size }

/-- `extractContentType(body)` of the source, branch for branch.  The
`string` check precedes the URLSearchParams check and the `getBoundary`
check precedes the `instanceof Stream` check in the source; the tags being
mutually exclusive, the `match` reproduces the same function. -/
def extractContentType : BodyInit → Option String
  | .null => none
  | .undef => some "text/plain;charset=UTF-8"
  | .str _ => some "text/plain;charset=UTF-8"
  | .urlSearchParams _ => some "application/x-www-form-urlencoded;charset=UTF-8"
  | .blobInit t _ => if t = "" then none else some t
  | .bufferInit _ => none
  | .arrayBufferInit _ => none
  | .arrayBufferView _ => none
  | .formEncoderInit b _ _ _ => some ("multipart/form-data;boundary=" ++ b)
  | .streamInit _ _ => none
  | .other _ => some "text/plain;charset=UTF-8"

/-- `getTotalBytes({body})` of the source: `null` source → 0, blob → its
`size`, buffer → its `length`, form-data object → `getLengthSync()` when
`hasKnownLength()`, else `null`; any other stream → `null`. -/
def getTotalBytes : BodySource → Option Nat
  | .empty => some 0
  | .blob _ content => some content.length
  | .bytes buf => some buf.length
  | .formEncoder _ known len _ => if known then some len else none
  | .stream _ _ => none

/-- Header validation errors, named after the specification's taxonomy
(`InvalidHeaderName` / `InvalidHeaderValue`; in the source both are
`TypeError`s with distinct messages). -/
inductive HdrErr where
  | invalidHeaderName
  | invalidHeaderValue
deriving DecidableEq, Repr

/-- The character class accepted by header names: the complement of
`invalidTokenRegex = /[^`\-\w!#$%&'*+.|~]/` (JavaScript `\w` is
`[A-Za-z0-9_]`).  `Char.ofNat 96` is the backtick, `Char.ofNat 39` the
apostrophe. -/
def isTokenChar (c : Char) : Bool :=
  c = Char.ofNat 96 || c = '-' || c.isAlpha || c.isDigit || c = '_' ||
  c = '!' || c = '#' || c = '$' || c = '%' || c = '&' || c = Char.ofNat 39 ||
  c = '*' || c = '+' || c = '.' || c = '|' || c = '~'

/-- `invalidTokenRegex.test(name)`: does the name contain a character
outside the token class? -/
def invalidTokenTest (name : String) : Bool :=
  name.data.any (fun c => !(isTokenChar c))

/-- The character class accepted by header values: the complement of
`invalidHeaderCharRegex = /[^\t -~\u0080-ÿ]/`. -/
def isValidHeaderChar (c : Char) : Bool :=
  c = Char.ofNat 9 || (0x20 ≤ c.toNat && c.toNat ≤ 0x7E) ||
    (0x80 ≤ c.toNat && c.toNat ≤ 0xFF)

/-- `invalidHeaderCharRegex.test(value)`. -/
def invalidValueTest (value : String) : Bool :=
  value.data.any (fun c => !(isValidHeaderChar c))

/-- `validateName(name)`: reject when the token regex finds an invalid
character or the name is empty. -/
def validateName (name : String) : Except HdrErr Unit :=
  if invalidTokenTest name || name = "" then .error .invalidHeaderName else .ok ()

/-- `validateValue(value)`: reject when the field-value regex finds an
invalid character. -/
def validateValue (value : String) : Except HdrErr Unit :=
  if invalidValueTest value then .error .invalidHeaderValue else .ok ()

/-- ASCII lowercasing of one character, the effect of JavaScript
`String.prototype.toLowerCase` on `A`-`Z`. -/
def asciiLowerChar (c : Char) : Char :=
  if 'A' ≤ c && c ≤ 'Z' then Char.ofNat (c.toNat + 32) else c

/-- ASCII lowercasing of a string. -/
def asciiLowerStr (s : String) : String :=
  String.mk (s.data.map asciiLowerChar)

/-- JavaScript `toLowerCase` restricted to the characters a validated
header name or value can contain (ASCII and the Latin-1 supplement):
`A`-`Z` and `À`-`Þ` (except `×`, 0xD7) shift down by 0x20; every other
such character is unchanged. -/
def jsLowerChar (c : Char) : Char :=
  if 'A' ≤ c && c ≤ 'Z' then Char.ofNat (c.toNat + 32)
  else if 0xC0 ≤ c.toNat && c.toNat ≤ 0xDE && c.toNat ≠ 0xD7 then
    Char.ofNat (c.toNat + 32)
  else c

/-- JavaScript `toLowerCase` on a (validated) header string. -/
def jsLowerStr (s : String) : String :=
  String.mk (s.data.map jsLowerChar)

/-- The stored header list: the ordered (name, value) pairs held by the
underlying `URLSearchParams`; names are lowercased before storage. -/
abbrev HeaderList : Type :=
  List (String × String)

/-- `/^content-encoding$/i.test(name)`: the regex is ASCII so, without the
`u` flag, case-insensitive matching is ASCII case folding. -/
def isContentEncoding (name : String) : Bool :=
  asciiLowerStr name = "content-encoding"

/-- `Array.prototype.join(', ')` over the matching values. -/
def joinComma : List String → String
  | [] => ""
  | [v] => v
  | v :: rest => v ++ ", " ++ joinComma rest

/-- Lexicographic comparison of character lists, the order
`URLSearchParams.sort()` sorts keys by (code-unit comparison; on the
validated ASCII names, code-unit, code-point and `String` order agree —
see `strLe_iff_le`). -/
def charListLe : List Char → List Char → Bool
  | [], _ => true
  | _ :: _, [] => false
  | a :: as, b :: bs =>
    if a < b then true
    else if b < a then false
    else charListLe as bs

/-- String comparison through `charListLe`. -/
def strLe (a b : String) : Prop :=
  charListLe a.data b.data = true

instance : DecidableRel strLe :=
  fun a b => inferInstanceAs (Decidable (charListLe a.data b.data = true))

/-- The key order used by `URLSearchParams.sort()` on stored pairs. -/
def nameLE (p q : String × String) : Prop :=
  strLe p.1 q.1

instance : DecidableRel nameLE :=
  fun p q => inferInstanceAs (Decidable (strLe p.1 q.1))

/-- Iterating a JavaScript `Set` built from a list: insertion order, first
occurrence kept; `seen` is the set of elements already emitted. -/
def dedupKeep (seen : List String) : List String → List String
  | [] => []
  | k :: ks => if k ∈ seen then dedupKeep seen ks else k :: dedupKeep (k :: seen) ks

namespace Headers

/-- The `append` arm of the constructor's Proxy: validate both parts, then
`URLSearchParams.append(name.toLowerCase(), value)` — the pair goes to the
end of the list. -/
def append (l : HeaderList) (name value : String) : Except HdrErr HeaderList :=
  match validateName name with
  | .error e => .error e
  | .ok _ =>
    match validateValue value with
    | .error e => .error e
    | .ok _ => .ok (l ++ [(jsLowerStr name, value)])

/-- The `getAll` arm of the Proxy: validate the name, lowercase it, then
`URLSearchParams.getAll` — the values of all pairs with that stored name,
in insertion order. -/
def getAll (l : HeaderList) (name : String) : Except HdrErr (List String) :=
  match validateName name with
  | .error e => .error e
  | .ok _ => .ok ((l.filter (fun p => p.1 = jsLowerStr name)).map Prod.snd)

/-- `Headers.prototype.get`: `getAll`, then `null` on no match, else the
values joined with `", "`, additionally lowercased when the queried name
matches `/^content-encoding$/i`. -/
def get (l : HeaderList) (name : String) : Except HdrErr (Option String) :=
  match getAll l name with
  | .error e => .error e
  | .ok vs =>
    if vs.length = 0 then .ok none
    else
      .ok (some (if isContentEncoding name then jsLowerStr (joinComma vs)
                 else joinComma vs))

/-- `target.sort()` inside the `keys` arm: a stable sort of the stored
pairs by name. -/
def sortEntries (l : HeaderList) : HeaderList :=
  List.insertionSort nameLE l

/-- The `keys` arm of the Proxy: sort the backing list in place, then
iterate a `Set` of its keys — the deduplicated key sequence together with
the mutated (sorted) list. -/
def keys (l : HeaderList) : List String × HeaderList :=
  let sorted := sortEntries l
  (dedupKeep [] (sorted.map Prod.fst), sorted)

/-- The validate-and-lowercase pass of the `Headers` constructor over the
normalized `[name, value][]` init list (`result.map(...)` before
`super(result)`): the first invalid pair throws, names are stored
lowercased. -/
def fromPairs : List (String × String) → Except HdrErr HeaderList
  | [] => .ok []
  | (n, v) :: rest =>
    match validateName n with
    | .error e => .error e
    | .ok _ =>
      match validateValue v with
      | .error e => .error e
      | .ok _ =>
        match fromPairs rest with
        | .error e => .error e
        | .ok tail => .ok ((jsLowerStr n, v) :: tail)

end Headers

/-- A value of a header record (`Record<string, string | string[]>`). -/
inductive RecordVal where
  | str (s : String)
  | arr (vs : List String)
deriving DecidableEq, Repr

/-- JavaScript string coercion of a record value: an array joins its
elements with `","`. -/
def jsStringOfVal : RecordVal → String
  | .str s => s
  | .arr vs => String.mk ((vs.map String.data).intersperse [','] |>.flatten)

/-- One step of the `reduce` inside `createHeadersLenient`: keep an entry
when its name passes the token regex and its coerced value passes the
field-value regex (note: for an array value the regex tests the
comma-joined coercion, so the whole entry stands or falls together, and
name emptiness is not checked here), flattening an array value into one
pair per element. -/
def lenientStep (result : List (String × String)) (entry : String × RecordVal) :
    List (String × String) :=
  if !(invalidTokenTest entry.1) && !(invalidValueTest (jsStringOfVal entry.2)) then
    result ++ (match entry.2 with
               | .str s => [(entry.1, s)]
               | .arr vs => vs.map (fun v => (entry.1, v)))
  else result

/-- `createHeadersLenient(object)`: reduce the record's entries through the
lenient filter, then hand the surviving pairs to the strict `Headers`
constructor. -/
def createHeadersLenient (object : List (String × RecordVal)) :
    Except HdrErr HeaderList :=
  Headers.fromPairs (object.foldl lenientStep [])

/-- Decidable equality of settlement outcomes (for evaluating the embedding
on concrete inputs). -/
instance {ε α : Type} [DecidableEq ε] [DecidableEq α] : DecidableEq (Except ε α) := fun
  | .error e, .error f =>
    if h : e = f then .isTrue (congrArg Except.error h)
    else .isFalse (fun hh => h (Except.error.inj hh))
  | .error _, .ok _ => .isFalse (fun hh => Except.noConfusion hh)
  | .ok _, .error _ => .isFalse (fun hh => Except.noConfusion hh)
  | .ok a, .ok b =>
    if h : a = b then .isTrue (congrArg Except.ok h)
    else .isFalse (fun hh => h (Except.ok.inj hh))

theorem charListLe_iff_not_lex :
    ∀ (as bs : List Char), charListLe as bs = true ↔ ¬ List.Lex (· < ·) bs as := by
  intro as
  induction as with
  | nil =>
    intro bs
    exact ⟨fun _ => List.Lex.not_nil_right _ bs, fun _ => rfl⟩
  | cons a as ih =>
    intro bs
    cases bs with
    | nil =>
      constructor
      · intro h; exact absurd h (by simp [charListLe])
      · intro h; exact absurd List.Lex.nil h
    | cons b bs =>
      by_cases hab : a < b
      · simp only [charListLe, if_pos hab]
        constructor
        · intro _ hlt
          cases hlt with
          | cons h1 => exact lt_irrefl a hab
          | rel h1 => exact lt_asymm hab h1
        · intro _; trivial
      · by_cases hba : b < a
        · simp only [charListLe, if_neg hab, if_pos hba]
          constructor
          · intro h; exact absurd h (by simp)
          · intro h; exact absurd (List.Lex.rel hba) h
        · have heq : a = b := le_antisymm (not_lt.mp hba) (not_lt.mp hab)
          subst heq
          simp only [charListLe, if_neg hab, if_neg hba]
          rw [ih bs]
          constructor
          · intro h hlt
            cases hlt with
            | cons h1 => exact h h1
            | rel h1 => exact lt_irrefl a h1
          · intro h hlt; exact h (List.Lex.cons hlt)

theorem strLe_iff_le (a b : String) : strLe a b ↔ a ≤ b := by
  have hlt : (b < a) ↔ List.Lex (· < ·) b.data a.data := String.lt_iff_toList_lt
  have hle : (a ≤ b) ↔ ¬ b < a := Iff.rfl
  rw [hle, hlt]
  exact charListLe_iff_not_lex a.data b.data

theorem nameLE_total : ∀ p q : String × String, nameLE p q ∨ nameLE q p := by
  intro p q
  rcases le_total p.1 q.1 with h | h
  · exact Or.inl ((strLe_iff_le _ _).mpr h)
  · exact Or.inr ((strLe_iff_le _ _).mpr h)

theorem nameLE_trans : ∀ p q r : String × String, nameLE p q → nameLE q r → nameLE p r := by
  intro p q r h1 h2
  exact (strLe_iff_le _ _).mpr (le_trans ((strLe_iff_le _ _).mp h1) ((strLe_iff_le _ _).mp h2))

theorem dedupKeep_sublist : ∀ (ks seen : List String), (dedupKeep seen ks).Sublist ks := by
  intro ks
  induction ks with
  | nil => intro seen; simp [dedupKeep]
  | cons k ks ih =>
    intro seen
    by_cases h : k ∈ seen
    · simp only [dedupKeep, if_pos h]
      exact (ih seen).trans (List.sublist_cons_self k ks)
    · simp only [dedupKeep, if_neg h]
      exact (ih (k :: seen)).cons₂ k

theorem dedupKeep_mem : ∀ (ks seen : List String) (x : String),
    x ∈ dedupKeep seen ks ↔ x ∈ ks ∧ x ∉ seen := by
  intro ks
  induction ks with
  | nil => intro seen x; simp [dedupKeep]
  | cons k ks ih =>
    intro seen x
    by_cases h : k ∈ seen
    · simp only [dedupKeep, if_pos h, ih, List.mem_cons]
      constructor
      · exact fun hx => ⟨Or.inr hx.1, hx.2⟩
      · rintro ⟨hx | hx, hs⟩
        · exact absurd (hx ▸ h) hs
        · exact ⟨hx, hs⟩
    · simp only [dedupKeep, if_neg h, List.mem_cons, ih]
      constructor
      · rintro (rfl | ⟨hx, hs⟩)
        · exact ⟨Or.inl rfl, h⟩
        · exact ⟨Or.inr hx, fun hmem => hs (Or.inr hmem)⟩
      · rintro ⟨rfl | hx, hs⟩
        · exact Or.inl rfl
        · by_cases hxk : x = k
          · exact Or.inl hxk
          · exact Or.inr ⟨hx, fun hmem => hmem.elim hxk hs⟩

theorem dedupKeep_nodup : ∀ (ks seen : List String), (dedupKeep seen ks).Nodup := by
  intro ks
  induction ks with
  | nil => intro seen; simp [dedupKeep]
  | cons k ks ih =>
    intro seen
    by_cases h : k ∈ seen
    · simp only [dedupKeep, if_pos h]; exact ih seen
    · simp only [dedupKeep, if_neg h]
      refine List.nodup_cons.mpr ⟨?_, ih _⟩
      intro hmem
      exact ((dedupKeep_mem ks (k :: seen) k).mp hmem).2 (List.mem_cons_self k seen)

theorem fromPairs_all_valid : ∀ (pairs : List (String × String)),
    (∀ p ∈ pairs, validateName p.1 = .ok () ∧ validateValue p.2 = .ok ()) →
    Headers.fromPairs pairs = .ok (pairs.map (fun p => (jsLowerStr p.1, p.2))) := by
  intro pairs
  induction pairs with
  | nil => intro _; rfl
  | cons p rest ih =>
    intro h
    obtain ⟨hn, hv⟩ := h p (List.mem_cons_self p rest)
    have htail := ih (fun q hq => h q (List.mem_cons_of_mem p hq))
    obtain ⟨n, v⟩ := p
    simp only [Headers.fromPairs, hn, hv, htail, List.map]

theorem foldl_lenientStep_str :
    ∀ (object : List (String × String)) (init : List (String × String)),
      (object.map (fun p => (p.1, RecordVal.str p.2))).foldl lenientStep init
        = init ++ object.filter
            (fun p => !(invalidTokenTest p.1) && !(invalidValueTest p.2)) := by
  intro object
  induction object with
  | nil => intro init; simp
  | cons p rest ih =>
    intro init
    obtain ⟨n, v⟩ := p
    simp only [List.map, List.foldl, List.filter]
    by_cases h : (!(invalidTokenTest n) && !(invalidValueTest v)) = true
    · rw [show lenientStep init (n, RecordVal.str v) = init ++ [(n, v)] by
        simp [lenientStep, jsStringOfVal, h]]
      rw [ih, h]
      simp
    · rw [show lenientStep init (n, RecordVal.str v) = init by
        simp only [lenientStep, jsStringOfVal]; rw [if_neg]; simpa using h]
      rw [ih]
      rw [Bool.not_eq_true] at h
      rw [h]

theorem joinComma_append_last : ∀ (vs : List String) (v : String),
    ∃ b, joinComma (vs ++ [v]) = b ++ v := by
  intro vs
  induction vs with
  | nil =>
    intro v
    refine ⟨"", ?_⟩
    show v = "" ++ v
    cases v; rfl
  | cons a vs ih =>
    intro v
    cases vs with
    | nil =>
      refine ⟨a ++ ", ", ?_⟩
      show a ++ ", " ++ v = (a ++ ", ") ++ v
      rw [String.append_assoc]
    | cons a2 vs2 =>
      obtain ⟨b, hb⟩ := ih v
      refine ⟨a ++ ", " ++ b, ?_⟩
      show a ++ ", " ++ joinComma ((a2 :: vs2) ++ [v]) = _
      rw [hb, String.append_assoc, String.append_assoc]
      exact (String.append_assoc a ", " (b ++ v)).symm

theorem consumeChunks_over (size : Nat) (hsz : size ≠ 0) :
    ∀ (chunks : List (List Nat)) (accB : Nat) (accum : List (List Nat)),
      accB ≤ size → size < accB + (chunks.map List.length).sum →
      consumeChunks size accB accum chunks = .error .bodyTooLarge := by
  intro chunks
  induction chunks with
  | nil =>
    intro accB accum hle hover
    simp only [List.map_nil, List.sum_nil, Nat.add_zero] at hover
    exact absurd hover (by omega)
  | cons c rest ih =>
    intro accB accum hle hover
    simp only [List.map_cons, List.sum_cons] at hover
    rw [consumeChunks]
    by_cases h : accB + c.length > size
    · rw [if_pos ⟨hsz, h⟩]
    · rw [if_neg (fun hh => h hh.2)]
      exact ih (accB + c.length) (accum ++ [c]) (by omega) (by omega)

theorem consumeBody_of_disturbed (s : BodyState) (h : s.disturbed = true) :
    consumeBody s = (.error .bodyAlreadyConsumed, s) := by
  simp [consumeBody, h]

theorem consumeBody_snd (s : BodyState) (h : s.disturbed = false) :
    (consumeBody s).2 = { s with disturbed := true } := by
  obtain ⟨src, dist, err, sz⟩ := s
  simp only at h
  subst h
  cases err <;> cases src <;> rfl

/-- C1: for every body instance, the first call to any drain accessor
(arrayBuffer, text, json, blob, buffer) sets bodyUsed from false to true
whether the drain succeeds or fails, and every subsequent drain attempt on
that instance fails with BodyAlreadyConsumed and leaves the state (hence
the underlying source) untouched, regardless of which accessor triggered
the first drain. -/
theorem body_single_consumption (s : BodyState) (h : Body.bodyUsed s = false) :
    Body.bodyUsed (Body.buffer s).2 = true ∧
    Body.bodyUsed (Body.arrayBuffer s).2 = true ∧
    (∀ decode, Body.bodyUsed (Body.text decode s).2 = true) ∧
    (∀ (α : Type) (parse : List Nat → Except FetchErr α),
      Body.bodyUsed (Body.json parse s).2 = true) ∧
    (∀ ct lower, Body.bodyUsed (Body.blob ct lower s).2 = true) ∧
    (∀ t : BodyState, Body.bodyUsed t = true →
      Body.buffer t = (.error .bodyAlreadyConsumed, t) ∧
      Body.arrayBuffer t = (.error .bodyAlreadyConsumed, t) ∧
      (∀ decode, Body.text decode t = (.error .bodyAlreadyConsumed, t)) ∧
      (∀ (α : Type) (parse : List Nat → Except FetchErr α),
        Body.json parse t = (.error .bodyAlreadyConsumed, t)) ∧
      (∀ ct lower, Body.blob ct lower t = (.error .bodyAlreadyConsumed, t))) ∧
    (∀ decode, Body.arrayBuffer (Body.text decode s).2
      = (.error .bodyAlreadyConsumed, (Body.text decode s).2)) := by
  have hsnd := consumeBody_snd s h
  have hdist : ∀ t : BodyState, Body.bodyUsed t = true →
      Body.buffer t = (.error .bodyAlreadyConsumed, t) ∧
      Body.arrayBuffer t = (.error .bodyAlreadyConsumed, t) ∧
      (∀ decode, Body.text decode t = (.error .bodyAlreadyConsumed, t)) ∧
      (∀ (α : Type) (parse : List Nat → Except FetchErr α),
        Body.json parse t = (.error .bodyAlreadyConsumed, t)) ∧
      (∀ ct lower, Body.blob ct lower t = (.error .bodyAlreadyConsumed, t)) := by
    intro t ht
    have hc := consumeBody_of_disturbed t ht
    refine ⟨?_, ?_, fun d => ?_, fun α p => ?_, fun ct lo => ?_⟩
    · simp [Body.buffer, hc]
    · simp [Body.arrayBuffer, hc, Except.map]
    · simp [Body.text, hc, Except.map]
    · simp [Body.json, hc, Except.bind]
    · simp [Body.blob, hc, Except.map]
  refine ⟨?_, ?_, fun d => ?_, fun α p => ?_, fun ct lo => ?_, hdist, fun d => ?_⟩
  · simp [Body.buffer, Body.bodyUsed, hsnd]
  · simp [Body.arrayBuffer, Body.bodyUsed, hsnd]
  · simp [Body.text, Body.bodyUsed, hsnd]
  · simp [Body.json, Body.bodyUsed, hsnd]
  · simp [Body.blob, Body.bodyUsed, hsnd]
  · have ht : Body.bodyUsed (Body.text d s).2 = true := by
      simp [Body.text, Body.bodyUsed, hsnd]
    exact (hdist _ ht).2.1

/-- Witness for C1 at a concrete unconsumed empty body: the first drain
disturbs it and the second fails with BodyAlreadyConsumed. -/
theorem body_single_consumption_witness :
    Body.bodyUsed { source := BodySource.empty, disturbed := false, error := none, size := 0 } = false ∧
    Body.bodyUsed (Body.buffer { source := BodySource.empty, disturbed := false, error := none, size := 0 }).2 = true ∧
    Body.buffer (Body.buffer { source := BodySource.empty, disturbed := false, error := none, size := 0 }).2
      = (.error .bodyAlreadyConsumed,
         (Body.buffer { source := BodySource.empty, disturbed := false, error := none, size := 0 }).2) := by
  have h := body_single_consumption
    { source := BodySource.empty, disturbed := false, error := none, size := 0 } rfl
  exact ⟨rfl, h.1, (h.2.2.2.2.2.1 _ h.1).1⟩

/-- C2 counterexample: a body constructed from the in-memory byte sequence
of "hello" with size limit 3 drains successfully to all 5 bytes — it does
not fail with BodyTooLarge, because the buffer branch of consumeBody
bypasses the size check. -/
theorem size_limit_bytes_counterexample :
    (consumeBody (bodyCtor (.bufferInit [104, 101, 108, 108, 111]) 3)).1
      = .ok [104, 101, 108, 108, 111] ∧
    (consumeBody (bodyCtor (.bufferInit [104, 101, 108, 108, 111]) 3)).1
      ≠ .error .bodyTooLarge := by
  exact ⟨rfl, by decide⟩

/-- C2 amended: the maximum-size check applies exactly to the sources that
drain through the stream accumulation loop — generic streams, form-encoder
streams, and blobs (which drain via their own stream): for an unconsumed,
error-free body backed by any of them, when the configured size is non-zero
and the total delivered bytes exceed it, the drain fails with BodyTooLarge —
in particular for the bytes of "hello" delivered as a stream chunk with
size limit 3. -/
theorem size_limit_stream_bodyTooLarge
    (s : BodyState)
    (hd : s.disturbed = false) (he : s.error = none) (hsz : s.size ≠ 0) :
    (∀ chunks hwm, s.source = .stream chunks hwm →
      s.size < (chunks.map List.length).sum →
      (consumeBody s).1 = .error .bodyTooLarge) ∧
    (∀ b k n chunks, s.source = .formEncoder b k n chunks →
      s.size < (chunks.map List.length).sum →
      (consumeBody s).1 = .error .bodyTooLarge) ∧
    (∀ t content, s.source = .blob t content →
      s.size < content.length →
      (consumeBody s).1 = .error .bodyTooLarge) ∧
    (consumeBody (bodyCtor (.streamInit [[104, 101, 108, 108, 111]] 0) 3)).1
      = .error .bodyTooLarge := by
  obtain ⟨src, dist, err, sz⟩ := s
  change dist = false at hd
  change err = none at he
  change sz ≠ 0 at hsz
  subst hd he
  refine ⟨fun chunks hwm hsrc hover => ?_, fun b k n chunks hsrc hover => ?_,
    fun t content hsrc hover => ?_, by decide⟩
  · change src = BodySource.stream chunks hwm at hsrc
    change sz < _ at hover
    subst hsrc
    rw [show (consumeBody ⟨BodySource.stream chunks hwm, false, none, sz⟩).1
        = consumeChunks sz 0 [] chunks from rfl]
    exact consumeChunks_over sz hsz chunks 0 [] (Nat.zero_le sz) (by simpa using hover)
  · change src = BodySource.formEncoder b k n chunks at hsrc
    change sz < _ at hover
    subst hsrc
    rw [show (consumeBody ⟨BodySource.formEncoder b k n chunks, false, none, sz⟩).1
        = consumeChunks sz 0 [] chunks from rfl]
    exact consumeChunks_over sz hsz chunks 0 [] (Nat.zero_le sz) (by simpa using hover)
  · change src = BodySource.blob t content at hsrc
    change sz < _ at hover
    subst hsrc
    rw [show (consumeBody ⟨BodySource.blob t content, false, none, sz⟩).1
        = consumeChunks sz 0 [] [content] from rfl]
    refine consumeChunks_over sz hsz [content] 0 [] (Nat.zero_le sz) ?_
    simpa using hover

/-- Witness for C2's amended theorem at the "hello" bytes with size limit
3, delivered once as a generic stream chunk, once through a form-encoder
stream, and once as a blob content. -/
theorem size_limit_stream_bodyTooLarge_witness :
    (consumeBody (bodyCtor (.streamInit [[104, 101, 108, 108, 111]] 0) 3)).1
      = .error .bodyTooLarge ∧
    (consumeBody { source := BodySource.formEncoder "b" false 0 [[104, 101, 108, 108, 111]],
                   disturbed := false, error := none, size := 3 }).1
      = .error .bodyTooLarge ∧
    (consumeBody { source := BodySource.blob "" [104, 101, 108, 108, 111],
                   disturbed := false, error := none, size := 3 }).1
      = .error .bodyTooLarge ∧
    (3 : Nat) ≠ 0 ∧
    (3 : Nat) < (([[104, 101, 108, 108, 111]] : List (List Nat)).map List.length).sum ∧
    (3 : Nat) < ([104, 101, 108, 108, 111] : List Nat).length :=
  ⟨(size_limit_stream_bodyTooLarge
      (bodyCtor (.streamInit [[104, 101, 108, 108, 111]] 0) 3)
      rfl rfl (by decide)).2.2.2,
   (size_limit_stream_bodyTooLarge
      { source := BodySource.formEncoder "b" false 0 [[104, 101, 108, 108, 111]],
        disturbed := false, error := none, size := 3 }
      rfl rfl (by decide)).2.1 "b" false 0 [[104, 101, 108, 108, 111]] rfl (by decide),
   (size_limit_stream_bodyTooLarge
      { source := BodySource.blob "" [104, 101, 108, 108, 111],
        disturbed := false, error := none, size := 3 }
      rfl rfl (by decide)).2.2.1 "" [104, 101, 108, 108, 111] rfl (by decide),
   by decide, by decide, by decide⟩

/-- C7 counterexample: on the absent (undefined) input, extractContentType
returns the text/plain fallback, not null — only the strict null input
maps to null. -/
theorem extractContentType_undefined_counterexample :
    extractContentType .undef = some "text/plain;charset=UTF-8" ∧
    extractContentType .undef ≠ none :=
  ⟨rfl, fun h => Option.noConfusion h⟩

/-- C7 amended: extractContentType maps null to null; a plain string to
text/plain;charset=UTF-8; URL-encoded form parameters to
application/x-www-form-urlencoded;charset=UTF-8; a blob to its declared
type or null when that type is empty; buffers and typed binary views to
null; a form-encoder object to multipart/form-data;boundary= followed by
its boundary; a generic stream to null; and the absent (undefined) input,
like any other unrecognized input, falls through to the coercion-to-string
fallback text/plain;charset=UTF-8. -/
theorem extractContentType_rules :
    extractContentType .null = none ∧
    (∀ s, extractContentType (.str s) = some "text/plain;charset=UTF-8") ∧
    (∀ s, extractContentType (.urlSearchParams s)
      = some "application/x-www-form-urlencoded;charset=UTF-8") ∧
    (∀ t c, extractContentType (.blobInit t c) = if t = "" then none else some t) ∧
    (∀ b, extractContentType (.bufferInit b) = none) ∧
    (∀ b, extractContentType (.arrayBufferInit b) = none) ∧
    (∀ b, extractContentType (.arrayBufferView b) = none) ∧
    (∀ b k n ch, extractContentType (.formEncoderInit b k n ch)
      = some ("multipart/form-data;boundary=" ++ b)) ∧
    (∀ ch h, extractContentType (.streamInit ch h) = none) ∧
    extractContentType .undef = some "text/plain;charset=UTF-8" ∧
    (∀ s, extractContentType (.other s) = some "text/plain;charset=UTF-8") :=
  ⟨rfl, fun _ => rfl, fun _ => rfl, fun _ _ => rfl, fun _ => rfl, fun _ => rfl,
   fun _ => rfl, fun _ _ _ _ => rfl, fun _ _ => rfl, rfl, fun _ => rfl⟩

/-- C8: getTotalBytes maps the empty (null) source to 0, a blob to its
declared size (a 10-byte blob to 10), an in-memory buffer to its length, a
form-encoder object to its synchronous length exactly when it reports a
known length and null otherwise, and a generic stream to null. -/
theorem getTotalBytes_rules :
    getTotalBytes .empty = some 0 ∧
    (∀ t c, getTotalBytes (.blob t c) = some c.length) ∧
    getTotalBytes (.blob "text/plain" (List.replicate 10 0)) = some 10 ∧
    (∀ buf, getTotalBytes (.bytes buf) = some buf.length) ∧
    (∀ b k n ch, getTotalBytes (.formEncoder b k n ch) = if k then some n else none) ∧
    (∀ ch h, getTotalBytes (.stream ch h) = none) :=
  ⟨rfl, fun _ _ => rfl, rfl, fun _ => rfl, fun _ _ _ _ => rfl, fun _ _ => rfl⟩

/-- C10: constructing a Body from the undefined (absent) value stores the
in-memory byte buffer of the string "undefined" (9 bytes), not the empty
source; draining it yields those 9 bytes, and extractContentType on
undefined returns the text/plain fallback rather than null. -/
theorem body_from_undefined_coerces_to_string :
    bodyCtor .undef 0
      = { source := .bytes (utf8Encode "undefined"), disturbed := false,
          error := none, size := 0 } ∧
    normalizeBody .undef ≠ .empty ∧
    (utf8Encode "undefined").length = 9 ∧
    (consumeBody (bodyCtor .undef 0)).1 = .ok (utf8Encode "undefined") ∧
    extractContentType .undef = some "text/plain;charset=UTF-8" :=
  ⟨rfl, by decide, by decide, rfl, rfl⟩

/-- C9: clone fails with CloneAfterConsumption exactly when bodyUsed is
true; otherwise a non-stream source (empty, bytes, blob) and a form-encoder
stream are returned as-is with the holder untouched, while any other stream
source is replaced by one of two branches buffered at the given
highWaterMark and carrying the same chunks, the holder keeping the other
branch. -/
theorem clone_contract (s : BodyState) (hwm : Nat) :
    (clone s hwm = .error .cloneAfterConsumption ↔ Body.bodyUsed s = true) ∧
    (Body.bodyUsed s = false →
      (s.source = .empty → clone s hwm = .ok (.empty, s)) ∧
      (∀ buf, s.source = .bytes buf → clone s hwm = .ok (.bytes buf, s)) ∧
      (∀ t c, s.source = .blob t c → clone s hwm = .ok (.blob t c, s)) ∧
      (∀ b k n ch, s.source = .formEncoder b k n ch →
        clone s hwm = .ok (.formEncoder b k n ch, s)) ∧
      (∀ ch h0, s.source = .stream ch h0 →
        clone s hwm = .ok (.stream ch hwm, { s with source := .stream ch hwm }))) := by
  constructor
  · constructor
    · intro hcl
      by_contra hd
      rw [Bool.not_eq_true] at hd
      have hok : ∃ x, clone s hwm = .ok x := by
        rcases hs : s.source with _ | buf | ⟨t, c⟩ | ⟨b, k, n, ch⟩ | ⟨ch, h0⟩ <;>
          simp [clone, show s.disturbed = false from hd, hs]
      obtain ⟨x, hx⟩ := hok
      rw [hx] at hcl
      exact Except.noConfusion hcl
    · intro hd
      simp [clone, show s.disturbed = true from hd]
  · intro hd
    have hd' : s.disturbed = false := hd
    refine ⟨fun hs => ?_, fun buf hs => ?_, fun t c hs => ?_,
      fun b k n ch hs => ?_, fun ch h0 hs => ?_⟩ <;>
      simp [clone, hd', hs]

/-- Witness for C9 at a concrete unconsumed stream-backed body: cloning
replaces the source by a branch at the new highWaterMark carrying the same
chunks and returns the identical other branch. -/
theorem clone_contract_witness :
    Body.bodyUsed { source := BodySource.stream [[1, 2]] 5, disturbed := false,
                    error := none, size := 0 } = false ∧
    clone { source := BodySource.stream [[1, 2]] 5, disturbed := false,
            error := none, size := 0 } 9
      = .ok (.stream [[1, 2]] 9,
             { source := BodySource.stream [[1, 2]] 9, disturbed := false,
               error := none, size := 0 }) := by
  have h := clone_contract
    { source := BodySource.stream [[1, 2]] 5, disturbed := false,
      error := none, size := 0 } 9
  exact ⟨rfl, (h.2 rfl).2.2.2.2 [[1, 2]] 5 rfl⟩

/-- C5: keys() returns the sorted, duplicate-free sequence of the stored
names, a second call (on the list the first call left behind) yields the
same sequence, and on a list with stored names ['b','a','a'] each call
yields ['a','b']. -/
theorem headers_keys_sorted_dedup_idempotent :
    (∀ l : HeaderList,
      List.Sorted (fun a b : String => a ≤ b) (Headers.keys l).1 ∧
      (Headers.keys l).1.Nodup ∧
      (∀ n, n ∈ (Headers.keys l).1 ↔ n ∈ l.map Prod.fst) ∧
      Headers.keys (Headers.keys l).2 = Headers.keys l) ∧
    (Headers.keys [("b", "1"), ("a", "2"), ("a", "3")]).1 = ["a", "b"] ∧
    (Headers.keys (Headers.keys [("b", "1"), ("a", "2"), ("a", "3")]).2).1
      = ["a", "b"] := by
  haveI : IsTotal (String × String) nameLE := ⟨nameLE_total⟩
  haveI : IsTrans (String × String) nameLE := ⟨nameLE_trans⟩
  refine ⟨fun l => ⟨?_, ?_, ?_, ?_⟩, by decide, by decide⟩
  · have hsorted : List.Sorted nameLE (Headers.sortEntries l) :=
      List.sorted_insertionSort nameLE l
    have hmap : List.Sorted (fun a b : String => strLe a b)
        ((Headers.sortEntries l).map Prod.fst) :=
      List.Pairwise.map Prod.fst (fun p q hpq => hpq) hsorted
    have hsub : ((Headers.keys l).1).Sublist ((Headers.sortEntries l).map Prod.fst) :=
      dedupKeep_sublist _ []
    exact (List.Pairwise.sublist hsub hmap).imp (fun hab => (strLe_iff_le _ _).mp hab)
  · exact dedupKeep_nodup _ []
  · intro n
    have hperm : (Headers.sortEntries l).Perm l := List.perm_insertionSort nameLE l
    rw [show (Headers.keys l).1
        = dedupKeep [] ((Headers.sortEntries l).map Prod.fst) from rfl]
    rw [dedupKeep_mem]
    simp only [List.not_mem_nil, not_false_iff, and_true]
    exact (hperm.map Prod.fst).mem_iff
  · show Headers.keys (Headers.sortEntries l) = Headers.keys l
    unfold Headers.keys
    rw [show Headers.sortEntries (Headers.sortEntries l) = Headers.sortEntries l from
      List.Sorted.insertionSort_eq (List.sorted_insertionSort nameLE l)]

/-- C6: get on a name that case-insensitively equals content-encoding
returns the joined matching values additionally lowercased (a stored "GZIP"
comes back as "gzip"); on any other name the joined values are returned
without case change. -/
theorem get_content_encoding_lowercased
    (l : HeaderList) (name : String) (vs : List String)
    (hga : Headers.getAll l name = .ok vs) (hne : vs ≠ []) :
    (isContentEncoding name = true →
      Headers.get l name = .ok (some (jsLowerStr (joinComma vs)))) ∧
    (isContentEncoding name = false →
      Headers.get l name = .ok (some (joinComma vs))) ∧
    Headers.get [("content-encoding", "GZIP")] "content-encoding"
      = .ok (some "gzip") ∧
    Headers.get [("x-test", "GZIP")] "x-test" = .ok (some "GZIP") := by
  have hlen : vs.length ≠ 0 := fun h0 => hne (List.length_eq_zero.mp h0)
  refine ⟨?_, ?_, by decide, by decide⟩
  · intro hce
    simp [Headers.get, hga, hlen, hce]
  · intro hce
    simp [Headers.get, hga, hlen, hce]

/-- Witness for C6 at a list storing content-encoding "GZIP": get returns
the lowercased join "gzip". -/
theorem get_content_encoding_lowercased_witness :
    Headers.getAll [("content-encoding", "GZIP")] "content-encoding" = .ok ["GZIP"] ∧
    (["GZIP"] : List String) ≠ [] ∧
    Headers.get [("content-encoding", "GZIP")] "content-encoding"
      = .ok (some (jsLowerStr (joinComma ["GZIP"]))) := by
  have h := get_content_encoding_lowercased
    [("content-encoding", "GZIP")] "content-encoding" ["GZIP"] (by decide) (by decide)
  exact ⟨by decide, by decide, h.1 (by decide)⟩

/-- C3 counterexample: on the record mapping the empty name to "x",
createHeadersLenient fails construction with InvalidHeaderName — the
lenient filter tests only the token regex (which the empty string passes)
and not emptiness, so the pair reaches the strict constructor and throws. -/
theorem createHeadersLenient_empty_name_counterexample :
    createHeadersLenient [("", .str "x")] = .error .invalidHeaderName ∧
    invalidTokenTest "" = false :=
  ⟨rfl, rfl⟩

/-- C3 amended: on a record of non-empty names with single string values,
createHeadersLenient keeps exactly the pairs passing both grammar regexes
(lowercasing the kept names) and never fails; in particular a pair whose
name contains a space is silently omitted where the strict constructor
fails with InvalidHeaderName.  (With sequence values the filter tests the
comma-joined coercion, so an entry stands or falls as a whole, and an
empty name escapes the filter and makes construction fail.) -/
theorem createHeadersLenient_amended
    (object : List (String × String))
    (hne : ∀ p ∈ object, p.1 ≠ "") :
    createHeadersLenient (object.map (fun p => (p.1, RecordVal.str p.2)))
      = .ok ((object.filter
              (fun p => !(invalidTokenTest p.1) && !(invalidValueTest p.2))).map
             (fun p => (jsLowerStr p.1, p.2))) ∧
    createHeadersLenient [("a b", .str "x"), ("good", .str "y")] = .ok [("good", "y")] ∧
    Headers.fromPairs [("a b", "x")] = .error .invalidHeaderName := by
  refine ⟨?_, by decide, by decide⟩
  rw [createHeadersLenient, foldl_lenientStep_str]
  rw [List.nil_append]
  apply fromPairs_all_valid
  intro p hp
  rw [List.mem_filter] at hp
  obtain ⟨hmem, hcond⟩ := hp
  rw [Bool.and_eq_true, Bool.not_eq_true', Bool.not_eq_true'] at hcond
  constructor
  · simp [validateName, hcond.1, hne p hmem]
  · simp [validateValue, hcond.2]

/-- Witness for C3's amended theorem at a record holding a space-named pair
and a valid pair: the lenient factory keeps exactly the valid one. -/
theorem createHeadersLenient_amended_witness :
    (∀ p ∈ ([("a b", "x"), ("good", "y")] : List (String × String)), p.1 ≠ "") ∧
    createHeadersLenient
        (([("a b", "x"), ("good", "y")] : List (String × String)).map
          (fun p => (p.1, RecordVal.str p.2)))
      = .ok ((([("a b", "x"), ("good", "y")] : List (String × String)).filter
              (fun p => !(invalidTokenTest p.1) && !(invalidValueTest p.2))).map
             (fun p => (jsLowerStr p.1, p.2))) := by
  have hne : ∀ p ∈ ([("a b", "x"), ("good", "y")] : List (String × String)),
      p.1 ≠ "" := by decide
  exact ⟨hne, (createHeadersLenient_amended _ hne).1⟩

/-- C4 counterexample: appending "GZIP" then "BR" under content-encoding
makes get return the lowercased join "gzip, br", not the plain join
"GZIP, BR" the claim requires for every valid pair — the content-encoding
carve-out breaks the universal statement. -/
theorem append_get_content_encoding_counterexample :
    Headers.append [] "Content-Encoding" "GZIP" = .ok [("content-encoding", "GZIP")] ∧
    Headers.append [("content-encoding", "GZIP")] "Content-Encoding" "BR"
      = .ok [("content-encoding", "GZIP"), ("content-encoding", "BR")] ∧
    Headers.get [("content-encoding", "GZIP"), ("content-encoding", "BR")]
        "Content-Encoding" = .ok (some "gzip, br") ∧
    joinComma ["GZIP", "BR"] = "GZIP, BR" ∧
    ("gzip, br" : String) ≠ "GZIP, BR" := by
  exact ⟨by decide, by decide, by decide, rfl, by decide⟩

/-- C4 amended: for every valid pair whose name is not case-insensitively
content-encoding, append then get (with the name in any letter case)
returns a string containing (ending with) the appended value; starting
from a list with no entry of that name, appending v1 then v2 yields
getAll of [v1, v2] (length 2, insertion order) and get equal to
"v1, v2"; get returns null when no entry with the name is stored.  (For
content-encoding the joined result is additionally lowercased, C6.) -/
theorem append_get_amended
    (l : HeaderList) (name value q : String)
    (hn : validateName name = .ok ()) (hv : validateValue value = .ok ())
    (hq : validateName q = .ok ())
    (hcase : jsLowerStr q = jsLowerStr name)
    (hce : isContentEncoding q = false) :
    Headers.append l name value = .ok (l ++ [(jsLowerStr name, value)]) ∧
    (∃ s, Headers.get (l ++ [(jsLowerStr name, value)]) q = .ok (some s) ∧
          ∃ b, s = b ++ value) ∧
    (l.filter (fun p => p.1 = jsLowerStr q) = [] →
      ∀ v2, validateValue v2 = .ok () →
        Headers.append (l ++ [(jsLowerStr name, value)]) name v2
          = .ok (l ++ [(jsLowerStr name, value), (jsLowerStr name, v2)]) ∧
        Headers.getAll (l ++ [(jsLowerStr name, value), (jsLowerStr name, v2)]) q
          = .ok [value, v2] ∧
        Headers.get (l ++ [(jsLowerStr name, value), (jsLowerStr name, v2)]) q
          = .ok (some (value ++ ", " ++ v2))) ∧
    (∀ l0 : HeaderList, l0.filter (fun p => p.1 = jsLowerStr q) = [] →
      Headers.get l0 q = .ok none) := by
  have happ : Headers.append l name value = .ok (l ++ [(jsLowerStr name, value)]) := by
    simp [Headers.append, hn, hv]
  have hmatch : (decide (jsLowerStr name = jsLowerStr q)) = true := by
    rw [hcase]; simp
  have hgetAll1 : Headers.getAll (l ++ [(jsLowerStr name, value)]) q
      = .ok ((l.filter (fun p => p.1 = jsLowerStr q)).map Prod.snd ++ [value]) := by
    simp only [Headers.getAll, hq, List.filter_append]
    rw [show List.filter (fun p => decide (p.1 = jsLowerStr q))
          [(jsLowerStr name, value)] = [(jsLowerStr name, value)] by
        simp [List.filter, hmatch]]
    simp
  refine ⟨happ, ?_, ?_, ?_⟩
  · obtain ⟨b, hb⟩ := joinComma_append_last
      ((l.filter (fun p => p.1 = jsLowerStr q)).map Prod.snd) value
    refine ⟨joinComma ((l.filter (fun p => p.1 = jsLowerStr q)).map Prod.snd
        ++ [value]), ?_, ⟨b, hb⟩⟩
    simp [Headers.get, hgetAll1, hce]
  · intro hempty v2 hv2
    have happ2 : Headers.append (l ++ [(jsLowerStr name, value)]) name v2
        = .ok ((l ++ [(jsLowerStr name, value)]) ++ [(jsLowerStr name, v2)]) := by
      simp [Headers.append, hn, hv2]
    have hgetAll2 : Headers.getAll
        (l ++ [(jsLowerStr name, value), (jsLowerStr name, v2)]) q
        = .ok [value, v2] := by
      simp only [Headers.getAll, hq, List.filter_append]
      rw [hempty]
      rw [show List.filter (fun p => decide (p.1 = jsLowerStr q))
            [(jsLowerStr name, value), (jsLowerStr name, v2)]
          = [(jsLowerStr name, value), (jsLowerStr name, v2)] by
          simp [List.filter, hmatch]]
      simp
    refine ⟨by simpa using happ2, hgetAll2, ?_⟩
    simp [Headers.get, hgetAll2, hce, joinComma]
  · intro l0 h0
    simp [Headers.get, Headers.getAll, hq, h0]

/-- Witness for C4's amended theorem at the spec's own example: append
X-Foo 1 then read it back under x-foo. -/
theorem append_get_amended_witness :
    Headers.append [] "X-Foo" "1" = .ok ([] ++ [(jsLowerStr "X-Foo", "1")]) ∧
    (([] ++ [(jsLowerStr "X-Foo", "1")] : HeaderList) = [("x-foo", "1")]) ∧
    (∃ s, Headers.get ([] ++ [(jsLowerStr "X-Foo", "1")]) "x-foo" = .ok (some s) ∧
          ∃ b, s = b ++ "1") ∧
    Headers.getAll ([] ++ [(jsLowerStr "X-Foo", "1"), (jsLowerStr "X-Foo", "2")])
        "x-foo" = .ok ["1", "2"] ∧
    Headers.get ([] ++ [(jsLowerStr "X-Foo", "1"), (jsLowerStr "X-Foo", "2")])
        "x-foo" = .ok (some ("1" ++ ", " ++ "2")) ∧
    Headers.get [] "x-foo" = .ok none := by
  have h := append_get_amended [] "X-Foo" "1" "x-foo"
    (by decide) (by decide) (by decide) (by decide) (by decide)
  have h2 := h.2.2.1 rfl "2" (by decide)
  exact ⟨h.1, by decide, h.2.1, h2.2.1, h2.2.2, h.2.2.2 [] rfl⟩
